import Mathlib

/-!
Shallow embedding of the SLAG commenting service (`src/main.py`).

The persisted state is three directories of JSON files: one comment file per
ULID, one index file per target, one flag file per comment.  We model each
directory as an association list keyed by the identifier part of the file
name; a file's contents are either a parsed value (`JFile.good`) or
unparseable text (`JFile.bad`, on which `json.load` raises
`JSONDecodeError`).  Endpoint handlers become pure functions from a `Store`
(plus the request data, the freshly generated ULID and the current time,
which are external inputs) to a result and a new `Store`.
-/

namespace Slag

/-- Default of `Settings.COMMENTS_BASE_URL`. -/
def COMMENTS_BASE_URL : String := "https://slag.example.com/comments"

/-- Default of `Settings.TARGET_BASE_URL`. -/
def TARGET_BASE_URL : String := "https://example.com"

/-- The `Actor` pydantic model (URLs kept as plain strings). -/
structure Actor where
  id : String
  name : String
  type : String
deriving DecidableEq

/-- The `CommentNote` pydantic model; `published` is the serialized
timestamp string, `id` and `target` are URL strings. -/
structure CommentNote where
  type : String
  id : String
  content : String
  published : String
  attributedTo : Actor
  inReplyTo : Option String
  target : String
deriving DecidableEq

/-- The `CommentInput` pydantic model. -/
structure CommentInput where
  content : String
  attributedTo : Actor
deriving DecidableEq

/-- The `FlagUpdate` pydantic model: four optional booleans. -/
structure FlagUpdate where
  hidden : Option Bool
  moderated : Option Bool
  reported : Option Bool
  deleted : Option Bool
deriving DecidableEq

/-- Contents of a persisted JSON file: parsed value or unparseable text. -/
inductive JFile (α : Type) where
  | good : α → JFile α
  | bad : JFile α
deriving DecidableEq

/-- A parsed flag file: a JSON object mapping flag names to booleans,
in insertion order (Python dicts preserve insertion order). -/
abbrev FlagMap := List (String × Bool)

/-- The filesystem state: `COMMENTS_DIR`, `TARGETS_DIR`, `FLAGS_DIR`.
Keys are the identifier part of the file name (`{ulid}.jsonld`,
`{target_id}.index.json`, `{ulid}.flags.json`); file names are unique,
and the list order is the directory enumeration (glob) order. -/
structure Store where
  comments : List (String × JFile CommentNote)
  targets : List (String × JFile (List String))
  flags : List (String × JFile FlagMap)
deriving DecidableEq

/-- How a request ends when it does not return normally: an
`HTTPException` with a status code, or an exception the handler does not
catch (e.g. a `JSONDecodeError` escaping `get_comments`). -/
inductive HErr where
  | http : Nat → HErr
  | unhandled : HErr
deriving DecidableEq

/-- Result of a request handler. -/
inductive Res (α : Type) where
  | ok : α → Res α
  | err : HErr → Res α
deriving DecidableEq

/-- First value stored under key `k`, mirroring one-file-per-key lookup. -/
def lookupL {α : Type} : List (String × α) → String → Option α
  | [], _ => none
  | p :: rest, k => if p.1 = k then some p.2 else lookupL rest k

/-- Whether some entry has key `k`. -/
def hasKey {α : Type} (l : List (String × α)) (k : String) : Bool :=
  l.any (fun p => decide (p.1 = k))

/-- Overwrite the value stored under key `k`, or add it at the end:
this is what writing file `k` does to a directory listing. -/
def setKey {α : Type} (l : List (String × α)) (k : String) (v : α) :
    List (String × α) :=
  if hasKey l k then l.map (fun p => if p.1 = k then (k, v) else p)
  else l ++ [(k, v)]

/-- URL of a comment, as built by the handlers. -/
def commentURL (cid : String) : String := COMMENTS_BASE_URL ++ "/" ++ cid

/-- The ActivityStreams OrderedCollection envelope returned by
`GET /comments/{target_id}`; the empty collection has no `id` field. -/
structure OrderedCollection where
  id : Option String
  totalItems : Nat
  orderedItems : List String
deriving DecidableEq

/-- Handler `get_comments` for `GET /comments/{target_id}`: empty collection when the
index file is absent; `json.load` of a bad index file raises an uncaught
`JSONDecodeError`. -/
def get_comments (st : Store) (target_id : String) : Res OrderedCollection :=
  match lookupL st.targets target_id with
  | none => .ok { id := none, totalItems := 0, orderedItems := [] }
  | some .bad => .err .unhandled
  | some (.good ids) =>
      .ok { id := some (COMMENTS_BASE_URL ++ "/" ++ target_id),
            totalItems := ids.length,
            orderedItems := ids.map commentURL }

/-- Injected I/O faults for the two writes of `post_comment`:
`putFault` fails the comment-file write, `appendFault` fails the
index-file write; both raise `IOError`, caught and mapped to a 500. -/
structure CreateFaults where
  putFault : Bool
  appendFault : Bool
deriving DecidableEq

/-- No injected faults. -/
def noFaults : CreateFaults := ⟨false, false⟩

/-- The `CommentNote` built by `post_comment`. -/
def mkNote (target_id : String) (inp : CommentInput) (new_id now : String) :
    CommentNote :=
  { type := "Note", id := commentURL new_id, content := inp.content,
    published := now, attributedTo := inp.attributedTo, inReplyTo := none,
    target := TARGET_BASE_URL ++ "/" ++ target_id }

/-- Handler `post_comment` for `POST /comments/{target_id}`: write the comment file,
then read the index file (absent reads as `[]`; a bad one raises an
uncaught `JSONDecodeError`, after the comment file is already written),
append the new id and write the index back.  Only `IOError` is caught
(mapped to 500); a fault after the first write leaves it in place. -/
def post_comment (st : Store) (target_id : String) (inp : CommentInput)
    (new_id now : String) (fl : CreateFaults) : Res CommentNote × Store :=
  let note := mkNote target_id inp new_id now
  if fl.putFault then (.err (.http 500), st)
  else
    let st1 : Store := { st with comments := setKey st.comments new_id (.good note) }
    match lookupL st1.targets target_id with
    | some .bad => (.err .unhandled, st1)
    | some (.good ids) =>
        if fl.appendFault then (.err (.http 500), st1)
        else (.ok note,
          { st1 with targets := setKey st1.targets target_id (.good (ids ++ [new_id])) })
    | none =>
        if fl.appendFault then (.err (.http 500), st1)
        else (.ok note,
          { st1 with targets := setKey st1.targets target_id (.good [new_id]) })

/-- Handler `get_comment` for `GET /comment/{ulid_id}`: 404 when the file is absent,
500 when it does not parse (`JSONDecodeError` is caught there). -/
def get_comment (st : Store) (ulid_id : String) : Res CommentNote :=
  match lookupL st.comments ulid_id with
  | none => .err (.http 404)
  | some .bad => .err (.http 500)
  | some (.good c) => .ok c

/-- Handler `edit_comment` for `PATCH /comment/{ulid_id}`: load the record, override
`content` and `attributedTo` only, write it back. -/
def edit_comment (st : Store) (ulid_id : String) (inp : CommentInput) :
    Res CommentNote × Store :=
  match lookupL st.comments ulid_id with
  | none => (.err (.http 404), st)
  | some .bad => (.err (.http 500), st)
  | some (.good c) =>
      let c2 : CommentNote :=
        { c with content := inp.content, attributedTo := inp.attributedTo }
      (.ok c2, { st with comments := setKey st.comments ulid_id (.good c2) })

/-- Python's `s.rsplit("/", 1)[-1]`: the part of `s` after the last slash
(all of `s` when it has no slash). -/
def lastSegment (s : String) : String :=
  ⟨(s.data.reverse.takeWhile (fun c => c ≠ '/')).reverse⟩

/-- The reply record built by `reply_to_comment`: the parent's target,
`inReplyTo` pointing at the parent. -/
def replyNote (parent : CommentNote) (inp : CommentInput) (new_id now : String) :
    CommentNote :=
  { type := "Note", id := commentURL new_id, content := inp.content,
    published := now, attributedTo := inp.attributedTo,
    inReplyTo := some parent.id, target := parent.target }

/-- Handler `reply_to_comment` for `POST /comment/{ulid_id}/reply`: fetch the parent
(404/500 propagate from `get_comment`), build the reply with the parent's
target and `inReplyTo`, write the reply file, then append to the index of
the target id recovered from the parent's target URL.  Here
`JSONDecodeError` on the index read IS caught and mapped to 500. -/
def reply_to_comment (st : Store) (ulid_id : String) (inp : CommentInput)
    (new_id now : String) : Res CommentNote × Store :=
  match get_comment st ulid_id with
  | .err e => (.err e, st)
  | .ok parent =>
      let reply : CommentNote := replyNote parent inp new_id now
      let st1 : Store := { st with comments := setKey st.comments new_id (.good reply) }
      let target_id := lastSegment parent.target
      match lookupL st1.targets target_id with
      | some .bad => (.err (.http 500), st1)
      | some (.good ids) =>
          (.ok reply,
           { st1 with targets := setKey st1.targets target_id (.good (ids ++ [new_id])) })
      | none =>
          (.ok reply,
           { st1 with targets := setKey st1.targets target_id (.good [new_id]) })

/-- Handler `get_flags` for `GET /comment/{ulid_id}/flags`: empty map when the flag
file is absent, 500 when it does not parse. -/
def get_flags (st : Store) (ulid_id : String) : Res FlagMap :=
  match lookupL st.flags ulid_id with
  | none => .ok []
  | some .bad => .err (.http 500)
  | some (.good m) => .ok m

/-- The `flags.model_dump()` items with `None` values dropped, in field
declaration order. -/
def FlagUpdate.items (u : FlagUpdate) : List (String × Bool) :=
  (match u.hidden with | some b => [("hidden", b)] | none => []) ++
  (match u.moderated with | some b => [("moderated", b)] | none => []) ++
  (match u.reported with | some b => [("reported", b)] | none => []) ++
  (match u.deleted with | some b => [("deleted", b)] | none => [])

/-- Python's `{**m, **upd}`: existing keys keep their position and take the
update's value; new keys are appended in the update's order. -/
def dictMerge (m upd : FlagMap) : FlagMap :=
  upd.foldl (fun acc p => setKey acc p.1 p.2) m

/-- Handler `update_flags` for `PATCH /comment/{ulid_id}/flags`: read existing flags
(absent reads as `{}`), overlay the non-null update fields, write back.
No comment-existence check anywhere. -/
def update_flags (st : Store) (ulid_id : String) (u : FlagUpdate) :
    Res FlagMap × Store :=
  match lookupL st.flags ulid_id with
  | some .bad => (.err (.http 500), st)
  | some (.good m) =>
      let upd := dictMerge m u.items
      (.ok upd, { st with flags := setKey st.flags ulid_id (.good upd) })
  | none =>
      let upd := dictMerge [] u.items
      (.ok upd, { st with flags := setKey st.flags ulid_id (.good upd) })

/-- Python `index.setdefault(target_id, []).append(ulid_id)` on the grouping dict:
append to the existing group in place, or add a new group at the end. -/
def appendGroup (idx : List (String × List String)) (t cid : String) :
    List (String × List String) :=
  if hasKey idx t then idx.map (fun q => if q.1 = t then (q.1, q.2 ++ [cid]) else q)
  else idx ++ [(t, [cid])]

/-- The scan loop of `rebuild_index`: read every comment file in directory
order, group the ids by the last segment of each comment's target URL;
the first unparseable comment file aborts the whole scan. -/
def scanComments : List (String × JFile CommentNote) →
    List (String × List String) → Option (List (String × List String))
  | [], acc => some acc
  | (_, .bad) :: _, _ => none
  | (cid, .good c) :: rest, acc =>
      scanComments rest (appendGroup acc (lastSegment c.target) cid)

/-- Lexicographic order on character lists by code point, the order
Python uses to compare strings. -/
def charListLe : List Char → List Char → Bool
  | [], _ => true
  | _ :: _, [] => false
  | a :: as, b :: bs =>
      if a.toNat < b.toNat then true
      else if b.toNat < a.toNat then false
      else charListLe as bs

/-- Python's `<=` on strings. -/
def strLe (a b : String) : Bool := charListLe a.data b.data

/-- Python's `sorted` on a list of strings: a stable sort by `strLe`. -/
def sortStrings (l : List String) : List String :=
  List.insertionSort (fun a b => strLe a b = true) l

/-- The write loop of `rebuild_index` applied to the grouping dict. -/
def writeAll (ts : List (String × JFile (List String)))
    (idx : List (String × List String)) : List (String × JFile (List String)) :=
  idx.foldl (fun acc q => setKey acc q.1 (.good (sortStrings q.2))) ts

/-- Handler `rebuild_index` for `POST /admin/rebuild-index`: scan all comments,
group by target, write each group back sorted by id, report the targets
touched.  Parse/IO failures abort with 500 before any index write. -/
def rebuild_index (st : Store) : Res (List String) × Store :=
  match scanComments st.comments [] with
  | none => (.err (.http 500), st)
  | some idx =>
      (.ok (idx.map (fun q => q.1)), { st with targets := writeAll st.targets idx })

/-- The aggregate written by `POST /admin/snapshot`. -/
structure SnapshotData where
  indexes : List (String × List String)
  flags : List (String × FlagMap)
deriving DecidableEq

/-- The index loop of `snapshot`: each entry is keyed by
`index_file.stem`, which for `{t}.index.json` is `t ++ ".index"`. -/
def snapshotIndexes : List (String × JFile (List String)) →
    Option (List (String × List String))
  | [] => some []
  | (_, .bad) :: _ => none
  | (t, .good ids) :: rest =>
      (snapshotIndexes rest).map (fun r => (t ++ ".index", ids) :: r)

/-- The flag loop of `snapshot`: each entry is keyed by
`flag_file.stem`, which for `{cid}.flags.json` is `cid ++ ".flags"`. -/
def snapshotFlags : List (String × JFile FlagMap) →
    Option (List (String × FlagMap))
  | [] => some []
  | (_, .bad) :: _ => none
  | (cid, .good m) :: rest =>
      (snapshotFlags rest).map (fun r => (cid ++ ".flags", m) :: r)

/-- Handler `snapshot` for `POST /admin/snapshot`: read every index file and every
flag file into the aggregate; any unparseable file aborts with 500 before
the snapshot file is written.  We return the aggregate that gets written. -/
def snapshot (st : Store) : Res SnapshotData :=
  match snapshotIndexes st.targets, snapshotFlags st.flags with
  | some idx, some fl => .ok { indexes := idx, flags := fl }
  | _, _ => .err (.http 500)

/-! ### Association-list lemmas -/

theorem hasKey_nil {α : Type} (k : String) : hasKey ([] : List (String × α)) k = false := by
  simp [hasKey]

theorem hasKey_cons {α : Type} (p : String × α) (l : List (String × α)) (k : String) :
    hasKey (p :: l) k = (decide (p.1 = k) || hasKey l k) := by
  simp [hasKey]

theorem lookupL_eq_none_iff {α : Type} (l : List (String × α)) (k : String) :
    lookupL l k = none ↔ hasKey l k = false := by
  induction l with
  | nil => simp [lookupL, hasKey]
  | cons p rest ih =>
      by_cases h : p.1 = k
      · simp [lookupL, hasKey, h]
      · simp [lookupL, hasKey, h] at ih ⊢
        exact ih

theorem lookupL_map_overwrite {α : Type} (l : List (String × α)) (k : String) (v : α)
    (h : hasKey l k = true) :
    lookupL (l.map (fun p => if p.1 = k then (k, v) else p)) k = some v := by
  induction l with
  | nil => simp [hasKey] at h
  | cons p rest ih =>
      by_cases hp : p.1 = k
      · simp [lookupL, hp]
      · rw [hasKey_cons] at h
        simp [hp] at h
        simpa [lookupL, hp] using ih h

theorem lookupL_append_single {α : Type} (l : List (String × α)) (k : String) (v : α)
    (h : hasKey l k = false) : lookupL (l ++ [(k, v)]) k = some v := by
  induction l with
  | nil => simp [lookupL]
  | cons p rest ih =>
      rw [hasKey_cons] at h
      simp at h
      obtain ⟨hp, hrest⟩ := h
      simpa [lookupL, hp] using ih hrest

theorem lookupL_setKey_self {α : Type} (l : List (String × α)) (k : String) (v : α) :
    lookupL (setKey l k v) k = some v := by
  unfold setKey
  by_cases h : hasKey l k
  · simp only [h, if_true]
    exact lookupL_map_overwrite l k v h
  · simp only [Bool.not_eq_true] at h
    simp only [h, Bool.false_eq_true, if_false]
    exact lookupL_append_single l k v h

theorem lookupL_map_overwrite_ne {α : Type} (l : List (String × α)) (k k' : String)
    (v : α) (hne : k' ≠ k) :
    lookupL (l.map (fun p => if p.1 = k then (k, v) else p)) k' = lookupL l k' := by
  induction l with
  | nil => simp [lookupL]
  | cons p rest ih =>
      by_cases hp : p.1 = k
      · have h1 : ¬ (k = k') := fun hk => hne hk.symm
        have h2 : ¬ (p.1 = k') := by rw [hp]; exact h1
        simp [lookupL, hp, h1, h2, ih]
      · by_cases hq : p.1 = k'
        · simp [lookupL, hp, hq, hne]
        · simp [lookupL, hp, hq, hne, ih]

theorem lookupL_append_single_ne {α : Type} (l : List (String × α)) (k k' : String)
    (v : α) (hne : k' ≠ k) : lookupL (l ++ [(k, v)]) k' = lookupL l k' := by
  induction l with
  | nil =>
      have h1 : ¬ (k = k') := fun hk => hne hk.symm
      simp [lookupL, h1]
  | cons p rest ih =>
      by_cases hq : p.1 = k'
      · simp [lookupL, hq]
      · simp [lookupL, hq, ih]

theorem lookupL_setKey_ne {α : Type} (l : List (String × α)) (k k' : String) (v : α)
    (hne : k' ≠ k) : lookupL (setKey l k v) k' = lookupL l k' := by
  unfold setKey
  by_cases h : hasKey l k
  · simp only [h, if_true]
    exact lookupL_map_overwrite_ne l k k' v hne
  · simp only [Bool.not_eq_true] at h
    simp only [h, Bool.false_eq_true, if_false]
    exact lookupL_append_single_ne l k k' v hne

/-! ### Rebuild lemmas -/

/-- Value of the last entry with key `t` (later index writes shadow
earlier ones in the write loop). -/
def findLast : List (String × List String) → String → Option (List String)
  | [], _ => none
  | q :: rest, t =>
      match findLast rest t with
      | some v => some v
      | none => if q.1 = t then some q.2 else none

theorem findLast_eq_none_iff (l : List (String × List String)) (t : String) :
    findLast l t = none ↔ hasKey l t = false := by
  induction l with
  | nil => simp [findLast, hasKey]
  | cons q rest ih =>
      rw [hasKey_cons]
      cases hr : findLast rest t with
      | some v =>
          simp [findLast, hr]
          rw [hr] at ih
          simp at ih
          simp [ih]
      | none =>
          rw [hr] at ih
          simp at ih
          by_cases hq : q.1 = t
          · simp [findLast, hr, hq]
          · simp [findLast, hr, hq, ih]

theorem lookupL_writeAll (ts : List (String × JFile (List String)))
    (idx : List (String × List String)) (t : String) :
    lookupL (writeAll ts idx) t =
      match findLast idx t with
      | some v => some (.good (sortStrings v))
      | none => lookupL ts t := by
  induction idx generalizing ts with
  | nil => simp [writeAll, findLast]
  | cons q rest ih =>
      show lookupL (writeAll (setKey ts q.1 (.good (sortStrings q.2))) rest) t = _
      rw [ih]
      cases hr : findLast rest t with
      | some v => simp [findLast, hr]
      | none =>
          by_cases hq : q.1 = t
          · subst hq
            simp [findLast, hr, lookupL_setKey_self]
          · have hne : t ≠ q.1 := fun h => hq h.symm
            simp [findLast, hr, hq, lookupL_setKey_ne _ _ _ _ hne]

theorem findLast_append_single (l : List (String × List String)) (k : String)
    (v : List String) : findLast (l ++ [(k, v)]) k = some v := by
  induction l with
  | nil => simp [findLast]
  | cons p rest ih => simp [findLast, ih]

theorem findLast_append_single_ne (l : List (String × List String)) (k k' : String)
    (v : List String) (hne : k' ≠ k) : findLast (l ++ [(k, v)]) k' = findLast l k' := by
  induction l with
  | nil =>
      have h1 : ¬ (k = k') := fun h => hne h.symm
      simp [findLast, h1]
  | cons p rest ih => simp [findLast, ih]

theorem findLast_map_append (l : List (String × List String)) (t cid : String) :
    findLast (l.map (fun q => if q.1 = t then (q.1, q.2 ++ [cid]) else q)) t =
      (findLast l t).map (fun v => v ++ [cid]) := by
  induction l with
  | nil => simp [findLast]
  | cons q rest ih =>
      cases hr : findLast rest t with
      | some v => simp [findLast, hr, ih]
      | none =>
          by_cases hq : q.1 = t
          · simp [findLast, hr, ih, hq]
          · simp [findLast, hr, ih, hq]

theorem findLast_map_append_ne (l : List (String × List String)) (t t' cid : String)
    (hne : t' ≠ t) :
    findLast (l.map (fun q => if q.1 = t then (q.1, q.2 ++ [cid]) else q)) t' =
      findLast l t' := by
  induction l with
  | nil => simp [findLast]
  | cons q rest ih =>
      cases hr : findLast rest t' with
      | some v => simp [findLast, hr, ih]
      | none =>
          by_cases hq : q.1 = t
          · have h2 : ¬ (t = t') := fun h => hne h.symm
            simp [findLast, hr, ih, hq, h2]
          · simp [findLast, hr, ih, hq]

theorem findLast_appendGroup_self (acc : List (String × List String)) (t cid : String) :
    findLast (appendGroup acc t cid) t = some ((findLast acc t).getD [] ++ [cid]) := by
  unfold appendGroup
  by_cases h : hasKey acc t
  · simp only [h, if_true]
    rw [findLast_map_append]
    cases hf : findLast acc t with
    | some v => simp
    | none =>
        rw [findLast_eq_none_iff] at hf
        rw [hf] at h
        simp at h
  · simp only [Bool.not_eq_true] at h
    simp only [h, Bool.false_eq_true, if_false]
    rw [findLast_append_single]
    have : findLast acc t = none := (findLast_eq_none_iff acc t).mpr h
    simp [this]

theorem findLast_appendGroup_ne (acc : List (String × List String)) (t t' cid : String)
    (hne : t' ≠ t) : findLast (appendGroup acc t cid) t' = findLast acc t' := by
  unfold appendGroup
  by_cases h : hasKey acc t
  · simp only [h, if_true]
    exact findLast_map_append_ne acc t t' cid hne
  · simp only [Bool.not_eq_true] at h
    simp only [h, Bool.false_eq_true, if_false]
    exact findLast_append_single_ne acc t t' [cid] hne

/-- Whether stored comment file `p` parses and belongs to target `t`. -/
def goodTarget (p : String × JFile CommentNote) (t : String) : Bool :=
  match p.2 with
  | .good c => decide (lastSegment c.target = t)
  | .bad => false

/-- Ids of the stored comments whose target resolves to `t`, in directory
order: the group that the rebuild scan collects for `t`. -/
def groupIds (cs : List (String × JFile CommentNote)) (t : String) : List String :=
  (cs.filter (fun p => goodTarget p t)).map (fun p => p.1)

/-- How the scan extends the group already accumulated for one target. -/
def combineGroup (o : Option (List String)) (l : List String) : Option (List String) :=
  match o with
  | some xs => some (xs ++ l)
  | none => if l.isEmpty then none else some l

theorem hasKey_iff_mem {α : Type} (l : List (String × α)) (k : String) :
    hasKey l k = true ↔ k ∈ l.map (fun p => p.1) := by
  simp [hasKey, List.any_eq_true]

theorem scanComments_findLast (cs : List (String × JFile CommentNote)) :
    ∀ acc idx, scanComments cs acc = some idx → ∀ t,
      findLast idx t = combineGroup (findLast acc t) (groupIds cs t) := by
  induction cs with
  | nil =>
      intro acc idx h t
      simp [scanComments] at h
      subst h
      cases hf : findLast acc t <;> simp [groupIds, combineGroup, hf]
  | cons p rest ih =>
      intro acc idx h t
      obtain ⟨cid, f⟩ := p
      cases f with
      | bad => simp [scanComments] at h
      | good c =>
          have h' : scanComments rest (appendGroup acc (lastSegment c.target) cid)
              = some idx := h
          have hih := ih (appendGroup acc (lastSegment c.target) cid) idx h' t
          by_cases hT : lastSegment c.target = t
          · rw [hih]
            subst hT
            rw [findLast_appendGroup_self]
            have hg : groupIds ((cid, JFile.good c) :: rest) (lastSegment c.target)
                = cid :: groupIds rest (lastSegment c.target) := by
              simp [groupIds, goodTarget]
            rw [hg]
            cases hf : findLast acc (lastSegment c.target) with
            | some xs => simp [combineGroup]
            | none => simp [combineGroup]
          · rw [hih, findLast_appendGroup_ne acc _ t cid (fun hh => hT hh.symm)]
            have hg : groupIds ((cid, JFile.good c) :: rest) t = groupIds rest t := by
              simp [groupIds, goodTarget, hT]
            rw [hg]

theorem charListLe_total : ∀ a b, charListLe a b = true ∨ charListLe b a = true := by
  intro a
  induction a with
  | nil => intro b; left; rfl
  | cons x xs ih =>
      intro b
      cases b with
      | nil => right; rfl
      | cons y ys =>
          rcases Nat.lt_trichotomy x.toNat y.toNat with h | h | h
          · left
            simp [charListLe, h]
          · have h1 : ¬ x.toNat < y.toNat := by omega
            have h2 : ¬ y.toNat < x.toNat := by omega
            rcases ih ys with hc | hc
            · left
              simp [charListLe, h1, h2, hc]
            · right
              simp [charListLe, h1, h2, hc]
          · right
            simp [charListLe, h]

theorem charListLe_trans :
    ∀ a b c, charListLe a b = true → charListLe b c = true → charListLe a c = true := by
  intro a
  induction a with
  | nil => intro b c _ _; rfl
  | cons x xs ih =>
      intro b c h1 h2
      cases b with
      | nil => simp [charListLe] at h1
      | cons y ys =>
          cases c with
          | nil => simp [charListLe] at h2
          | cons z zs =>
              by_cases hxy : x.toNat < y.toNat
              · by_cases hyz : y.toNat < z.toNat
                · have : x.toNat < z.toNat := Nat.lt_trans hxy hyz
                  simp [charListLe, this]
                · by_cases hzy : z.toNat < y.toNat
                  · simp [charListLe, hyz, hzy] at h2
                  · have hyzeq : y.toNat = z.toNat := by omega
                    have : x.toNat < z.toNat := by omega
                    simp [charListLe, this]
              · by_cases hyx : y.toNat < x.toNat
                · simp [charListLe, hxy, hyx] at h1
                · have hxyeq : x.toNat = y.toNat := by omega
                  by_cases hyz : y.toNat < z.toNat
                  · have : x.toNat < z.toNat := by omega
                    simp [charListLe, this]
                  · by_cases hzy : z.toNat < y.toNat
                    · simp [charListLe, hyz, hzy] at h2
                    · have hxz1 : ¬ x.toNat < z.toNat := by omega
                      have hxz2 : ¬ z.toNat < x.toNat := by omega
                      simp [charListLe, hxy, hyx] at h1
                      simp [charListLe, hyz, hzy] at h2
                      simp [charListLe, hxz1, hxz2]
                      exact ih ys zs h1 h2

instance strLeRel_total : IsTotal String (fun a b => strLe a b = true) :=
  ⟨fun a b => charListLe_total a.data b.data⟩

instance strLeRel_trans : IsTrans String (fun a b => strLe a b = true) :=
  ⟨fun a b c => charListLe_trans a.data b.data c.data⟩

theorem sortStrings_perm (l : List String) : List.Perm (sortStrings l) l :=
  List.perm_insertionSort _ l

theorem sortStrings_sorted (l : List String) :
    List.Sorted (fun a b : String => strLe a b = true) (sortStrings l) :=
  List.sorted_insertionSort _ l

/-! ### Flag merge lemmas -/

theorem lookupL_dictMerge_absent (upd : FlagMap) :
    ∀ (m : FlagMap) (k : String), hasKey upd k = false →
      lookupL (dictMerge m upd) k = lookupL m k := by
  induction upd with
  | nil => intro m k _; rfl
  | cons p rest ih =>
      intro m k h
      rw [hasKey_cons] at h
      simp at h
      obtain ⟨hp, hrest⟩ := h
      have hstep : dictMerge m (p :: rest) = dictMerge (setKey m p.1 p.2) rest := rfl
      rw [hstep, ih _ k hrest, lookupL_setKey_ne _ _ _ _ (fun hh => hp hh.symm)]

theorem lookupL_dictMerge_present (upd : FlagMap) :
    ∀ (m : FlagMap) (k : String) (v : Bool),
      (upd.map (fun p => p.1)).Nodup → lookupL upd k = some v →
      lookupL (dictMerge m upd) k = some v := by
  induction upd with
  | nil => intro m k v _ h; simp [lookupL] at h
  | cons p rest ih =>
      intro m k v hnd h
      rw [List.map_cons, List.nodup_cons] at hnd
      obtain ⟨hnotin, hndrest⟩ := hnd
      have hstep : dictMerge m (p :: rest) = dictMerge (setKey m p.1 p.2) rest := rfl
      by_cases hp : p.1 = k
      · have hv : v = p.2 := by
          simp [lookupL, hp] at h
          exact h.symm
        subst hv
        subst hp
        have habs : hasKey rest p.1 = false := by
          by_contra hk
          simp at hk
          exact hnotin ((hasKey_iff_mem rest p.1).mp hk)
        rw [hstep, lookupL_dictMerge_absent rest _ _ habs, lookupL_setKey_self]
      · have h' : lookupL rest k = some v := by
          simpa [lookupL, hp] using h
        rw [hstep]
        exact ih _ k v hndrest h'

theorem items_keys_nodup (u : FlagUpdate) :
    (u.items.map (fun p => p.1)).Nodup := by
  obtain ⟨oh, om, orp, od⟩ := u
  cases oh <;> cases om <;> cases orp <;> cases od <;> simp [FlagUpdate.items]

/-! ### Claim theorems -/

/-- C3: Rebuild is idempotent.  For every store state, running
`rebuild_index` twice in succession with no intervening writes returns the
same result and leaves every Target Index file with the same contents as
after the first run. -/
theorem rebuild_index_idempotent (st : Store) :
    (rebuild_index (rebuild_index st).2).1 = (rebuild_index st).1 ∧
    ∀ t, lookupL (rebuild_index (rebuild_index st).2).2.targets t
        = lookupL (rebuild_index st).2.targets t := by
  cases h : scanComments st.comments [] with
  | none =>
      have h1 : rebuild_index st = (.err (.http 500), st) := by
        simp [rebuild_index, h]
      rw [h1]
      simp [rebuild_index, h]
  | some idx =>
      have h1 : rebuild_index st
          = (.ok (idx.map (fun q => q.1)), { st with targets := writeAll st.targets idx }) := by
        simp [rebuild_index, h]
      have h2 : rebuild_index { st with targets := writeAll st.targets idx }
          = (.ok (idx.map (fun q => q.1)),
             { st with targets := writeAll (writeAll st.targets idx) idx }) := by
        simp [rebuild_index, h]
      rw [h1]
      simp only
      rw [h2]
      refine ⟨rfl, fun t => ?_⟩
      simp only
      rw [lookupL_writeAll, lookupL_writeAll]
      cases hf : findLast idx t with
      | some v => simp
      | none => simp [lookupL_writeAll, hf]

/-- C4: when every stored comment file parses, Rebuild groups the comments
by target, writes for each target present in the store (exactly the
targets with a nonempty group) an index file holding that group's ids
sorted by id, returns those targets, and leaves the Flag Overlay (and the
Document Store, and the index files of targets with no stored comment)
untouched. -/
theorem rebuild_index_spec (st : Store) (idx : List (String × List String))
    (h : scanComments st.comments [] = some idx) :
    (rebuild_index st).1 = .ok (idx.map (fun q => q.1)) ∧
    (∀ t, t ∈ idx.map (fun q => q.1) ↔ groupIds st.comments t ≠ []) ∧
    (∀ t, groupIds st.comments t ≠ [] →
      lookupL (rebuild_index st).2.targets t
        = some (.good (sortStrings (groupIds st.comments t)))) ∧
    (∀ t, groupIds st.comments t = [] →
      lookupL (rebuild_index st).2.targets t = lookupL st.targets t) ∧
    (∀ t, List.Perm (sortStrings (groupIds st.comments t)) (groupIds st.comments t) ∧
      List.Sorted (fun a b : String => strLe a b = true)
        (sortStrings (groupIds st.comments t))) ∧
    (rebuild_index st).2.flags = st.flags ∧
    (rebuild_index st).2.comments = st.comments := by
  have hfl : ∀ t, findLast idx t = combineGroup none (groupIds st.comments t) := by
    intro t
    have := scanComments_findLast st.comments [] idx h t
    simpa [findLast] using this
  have h1 : rebuild_index st
      = (.ok (idx.map (fun q => q.1)), { st with targets := writeAll st.targets idx }) := by
    simp [rebuild_index, h]
  refine ⟨by rw [h1], ?_, ?_, ?_, ?_, by rw [h1], by rw [h1]⟩
  · intro t
    rw [← hasKey_iff_mem]
    constructor
    · intro hk hg
      have : findLast idx t = none := by
        rw [hfl, hg]
        simp [combineGroup]
      rw [findLast_eq_none_iff] at this
      rw [this] at hk
      simp at hk
    · intro hg
      by_contra hk
      simp at hk
      have : findLast idx t = none := (findLast_eq_none_iff idx t).mpr hk
      rw [hfl] at this
      cases hgl : groupIds st.comments t with
      | nil => exact hg hgl
      | cons a l =>
          rw [hgl] at this
          simp [combineGroup] at this
  · intro t hg
    rw [h1]
    simp only
    rw [lookupL_writeAll]
    have : findLast idx t = some (groupIds st.comments t) := by
      rw [hfl]
      cases hgl : groupIds st.comments t with
      | nil => exact absurd hgl hg
      | cons a l => simp [combineGroup]
    rw [this]
  · intro t hg
    rw [h1]
    simp only
    rw [lookupL_writeAll]
    have : findLast idx t = none := by
      rw [hfl, hg]
      simp [combineGroup]
    rw [this]
  · intro t
    exact ⟨sortStrings_perm _, sortStrings_sorted _⟩

/-- C5: flag merges are additive, not replacing.  Starting from a comment
with no flag file, merging an update whose only non-null item is
`(a, true)` and then one whose only non-null item is `(b, true)` (with
`a ≠ b`) yields exactly the flag set `{a: true, b: true}`; moreover every
merge overlays only the keys present with a non-null value in the update
(they get the update's value) and leaves all other keys of the existing
flag set unchanged. -/
theorem flag_merge_additive (st : Store) (cid a b : String) (u1 u2 : FlagUpdate)
    (h0 : lookupL st.flags cid = none)
    (h1 : u1.items = [(a, true)]) (h2 : u2.items = [(b, true)]) (hab : a ≠ b) :
    (update_flags (update_flags st cid u1).2 cid u2).1 = .ok [(a, true), (b, true)] ∧
    get_flags (update_flags (update_flags st cid u1).2 cid u2).2 cid
      = .ok [(a, true), (b, true)] ∧
    (∀ (m : FlagMap) (u : FlagUpdate) (k : String), hasKey u.items k = false →
      lookupL (dictMerge m u.items) k = lookupL m k) ∧
    (∀ (m : FlagMap) (u : FlagUpdate) (k : String) (v : Bool),
      lookupL u.items k = some v → lookupL (dictMerge m u.items) k = some v) := by
  have e1 : dictMerge [] u1.items = [(a, true)] := by
    rw [h1]
    rfl
  have estep1 : update_flags st cid u1
      = (.ok [(a, true)], { st with flags := setKey st.flags cid (.good [(a, true)]) }) := by
    simp only [update_flags, h0, e1]
  have hl1 : lookupL (update_flags st cid u1).2.flags cid = some (.good [(a, true)]) := by
    rw [estep1]
    exact lookupL_setKey_self _ _ _
  have e2 : dictMerge [(a, true)] u2.items = [(a, true), (b, true)] := by
    rw [h2]
    show setKey [(a, true)] b true = [(a, true), (b, true)]
    simp [setKey, hasKey, hab]
  have estep2 : update_flags (update_flags st cid u1).2 cid u2
      = (.ok [(a, true), (b, true)],
         { st with flags := setKey (setKey st.flags cid (.good [(a, true)])) cid (.good [(a, true), (b, true)]) }) := by
    rw [estep1]
    simp only [update_flags, lookupL_setKey_self, e2]
  refine ⟨by rw [estep2], ?_, ?_, ?_⟩
  · rw [estep2]
    simp only [get_flags]
    rw [lookupL_setKey_self]
  · intro m u k hk
    exact lookupL_dictMerge_absent u.items m k hk
  · intro m u k v hv
    exact lookupL_dictMerge_present u.items m k v
      (by simpa using items_keys_nodup u) hv

/-- C10: `PATCH /comment/{id}/flags` never checks comment existence: for an
id with no comment record it still succeeds, writing a flag file holding
the merge of the previous flags (empty when the file was absent) with the
update, and the outcome is completely independent of the comment
directory's contents. -/
theorem update_flags_no_existence_check (st : Store) (cid : String) (u : FlagUpdate)
    (m : FlagMap)
    (hNoComment : lookupL st.comments cid = none)
    (hFlags : (lookupL st.flags cid = none ∧ m = []) ∨
      lookupL st.flags cid = some (.good m)) :
    (update_flags st cid u).1 = .ok (dictMerge m u.items) ∧
    lookupL (update_flags st cid u).2.flags cid = some (.good (dictMerge m u.items)) ∧
    ∀ cs, update_flags { st with comments := cs } cid u
      = ((update_flags st cid u).1,
         { (update_flags st cid u).2 with comments := cs }) := by
  rcases hFlags with ⟨hf, hm⟩ | hf
  · subst hm
    have e : update_flags st cid u
        = (.ok (dictMerge [] u.items),
           { st with flags := setKey st.flags cid (.good (dictMerge [] u.items)) }) := by
      simp only [update_flags, hf]
    refine ⟨by rw [e], ?_, ?_⟩
    · rw [e]
      exact lookupL_setKey_self _ _ _
    · intro cs
      rw [e]
      simp only [update_flags, hf]
  · have e : update_flags st cid u
        = (.ok (dictMerge m u.items),
           { st with flags := setKey st.flags cid (.good (dictMerge m u.items)) }) := by
      simp only [update_flags, hf]
    refine ⟨by rw [e], ?_, ?_⟩
    · rw [e]
      exact lookupL_setKey_self _ _ _
    · intro cs
      rw [e]
      simp only [update_flags, hf]

/-- A store with a malformed index file for target `t1` and a malformed
flag file for comment `c1`. -/
def badStore : Store := ⟨[], [("t1", .bad)], [("c1", .bad)]⟩

/-- C1 (counterexample): with a malformed index file, `GET /comments/t1`
does not return the empty collection — the request dies on an uncaught
`JSONDecodeError`; with a malformed flag file, `GET /comment/c1/flags`
does not return the empty map — it fails with a 500.  This refutes the
claim that malformed index/flag files are treated as empty on the read
path. -/
theorem malformed_read_counterexample :
    get_comments badStore "t1" = .err .unhandled ∧
    get_flags badStore "c1" = .err (.http 500) := by decide

/-- C1 (amended): for every persisted index or flag file whose contents
are not valid JSON, the read-path operations FAIL the request instead of
treating the file as empty: `GET /comments/{target}` raises an uncaught
decode error and `GET /comment/{id}/flags` returns a 500. -/
theorem malformed_read_fails (st : Store) (t cid : String)
    (hidx : lookupL st.targets t = some .bad)
    (hflag : lookupL st.flags cid = some .bad) :
    get_comments st t = .err .unhandled ∧ get_flags st cid = .err (.http 500) := by
  constructor
  · simp only [get_comments, hidx]
  · simp only [get_flags, hflag]

theorem append_index_inj (t1 t2 : String) (h : t1 ++ ".index" = t2 ++ ".index") :
    t1 = t2 := by
  have hd : t1.data ++ ".index".data = t2.data ++ ".index".data := by
    rw [← String.data_append, ← String.data_append, h]
  exact String.ext (List.append_cancel_right hd)

theorem snapshotIndexes_lookup (l : List (String × JFile (List String))) :
    ∀ (sidx : List (String × List String)) (t : String) (ids : List String),
      snapshotIndexes l = some sidx → lookupL l t = some (.good ids) →
      lookupL sidx (t ++ ".index") = some ids := by
  induction l with
  | nil =>
      intro sidx t ids _ hl
      simp [lookupL] at hl
  | cons p rest ih =>
      intro sidx t ids hs hl
      obtain ⟨t', f⟩ := p
      cases f with
      | bad => simp [snapshotIndexes] at hs
      | good ids' =>
          simp only [snapshotIndexes, Option.map_eq_some'] at hs
          obtain ⟨r, hr, hcons⟩ := hs
          by_cases ht : t' = t
          · subst ht
            have : ids' = ids := by simpa [lookupL] using hl
            subst this
            rw [← hcons]
            simp [lookupL]
          · have hl' : lookupL rest t = some (.good ids) := by
              simpa [lookupL, ht] using hl
            have hne : ¬ (t' ++ ".index" = t ++ ".index") :=
              fun hh => ht (append_index_inj t' t hh)
            rw [← hcons]
            simp only [lookupL, hne, if_false]
            exact ih r t ids hr hl'

/-- A store where target `t1` has a persisted index file listing
comment `c1`. -/
def snapStore : Store := ⟨[], [("t1", .good ["c1"])], []⟩

/-- C2 (counterexample): at `snapStore`, target `t1` has a persisted
index file, yet the snapshot's `indexes` mapping has NO entry keyed
`"t1"` — the entry is keyed by the file stem `"t1.index"` — and the
value it holds is the raw id list `["c1"]`, which is not the sequence
`list(t1)` returns (an envelope of comment URLs). -/
theorem snapshot_key_counterexample :
    snapshot snapStore = .ok ⟨[("t1.index", ["c1"])], []⟩ ∧
    lookupL [(("t1.index" : String), (["c1"] : List String))] "t1" = none ∧
    get_comments snapStore "t1"
      = .ok ⟨some "https://slag.example.com/comments/t1", 1,
             ["https://slag.example.com/comments/c1"]⟩ ∧
    (["c1"] : List String) ≠ ["https://slag.example.com/comments/c1"] := by decide

/-- C2 (amended): when Snapshot succeeds, for every target with a
persisted (and parseable) index file, the snapshot's `indexes` mapping
contains the entry under the key `target ++ ".index"` (the file stem,
not the bare target), its value is the raw id sequence of the index
file, and `list(target)` at the same moment returns exactly those ids
rendered as comment URLs. -/
theorem snapshot_index_roundtrip (st : Store) (sd : SnapshotData) (t : String)
    (ids : List String)
    (hs : snapshot st = .ok sd)
    (ht : lookupL st.targets t = some (.good ids)) :
    lookupL sd.indexes (t ++ ".index") = some ids ∧
    get_comments st t = .ok { id := some (COMMENTS_BASE_URL ++ "/" ++ t),
                              totalItems := ids.length,
                              orderedItems := ids.map commentURL } := by
  constructor
  · cases hsi : snapshotIndexes st.targets with
    | none =>
        rw [snapshot, hsi] at hs
        cases hsf : snapshotFlags st.flags <;> rw [hsf] at hs <;> simp at hs
    | some idx =>
        cases hsf : snapshotFlags st.flags with
        | none =>
            rw [snapshot, hsi, hsf] at hs
            simp at hs
        | some fl =>
            rw [snapshot, hsi, hsf] at hs
            have : sd = ⟨idx, fl⟩ := by
              cases hs
              rfl
            subst this
            exact snapshotIndexes_lookup st.targets idx t ids hsi ht
  · simp only [get_comments, ht]

/-- A sequence of create requests against one target, with no faults and
no concurrent writers; each element carries the generated ULID, the
timestamp and the request body of one `POST /comments/{t}` call. -/
def runCreates (st : Store) (t : String) :
    List (String × String × CommentInput) → Store
  | [] => st
  | op :: rest => runCreates (post_comment st t op.2.2 op.1 op.2.1 noFaults).2 t rest

theorem runCreates_index (t : String) :
    ∀ (ops : List (String × String × CommentInput)) (st : Store) (l : List String),
      lookupL st.targets t = some (.good l) →
      lookupL (runCreates st t ops).targets t
        = some (.good (l ++ ops.map (fun op => op.1))) := by
  intro ops
  induction ops with
  | nil =>
      intro st l h
      simpa [runCreates] using h
  | cons op rest ih =>
      intro st l h
      have h2 : lookupL (post_comment st t op.2.2 op.1 op.2.1 noFaults).2.targets t
          = some (.good (l ++ [op.1])) := by
        simp only [post_comment, noFaults, h, Bool.false_eq_true, if_false]
        exact lookupL_setKey_self _ _ _
      have h3 := ih (post_comment st t op.2.2 op.1 op.2.1 noFaults).2 (l ++ [op.1]) h2
      rw [show runCreates st t (op :: rest)
          = runCreates (post_comment st t op.2.2 op.1 op.2.1 noFaults).2 t rest from rfl]
      rw [h3]
      simp

/-- C6: starting from a target with no index file, after `N` sequential
create operations under that target (no concurrent writers, no faults),
`list(target)` returns exactly `N` comment references, in creation
order. -/
theorem sequential_creates_listed (st : Store) (t : String)
    (ops : List (String × String × CommentInput))
    (h : lookupL st.targets t = none) :
    ∃ col, get_comments (runCreates st t ops) t = .ok col ∧
      col.totalItems = ops.length ∧
      col.orderedItems = ops.map (fun op => commentURL op.1) := by
  cases ops with
  | nil =>
      refine ⟨⟨none, 0, []⟩, ?_, rfl, rfl⟩
      simp [runCreates, get_comments, h]
  | cons op rest =>
      have h2 : lookupL (post_comment st t op.2.2 op.1 op.2.1 noFaults).2.targets t
          = some (.good [op.1]) := by
        simp only [post_comment, noFaults, h, Bool.false_eq_true, if_false]
        exact lookupL_setKey_self _ _ _
      have h3 := runCreates_index t rest
        (post_comment st t op.2.2 op.1 op.2.1 noFaults).2 [op.1] h2
      refine ⟨⟨some (COMMENTS_BASE_URL ++ "/" ++ t),
              ([op.1] ++ rest.map (fun op => op.1)).length,
              ([op.1] ++ rest.map (fun op => op.1)).map commentURL⟩, ?_, ?_, ?_⟩
      · rw [show runCreates st t (op :: rest)
            = runCreates (post_comment st t op.2.2 op.1 op.2.1 noFaults).2 t rest from rfl]
        simp only [get_comments, h3]
      · simp
      · simp

/-- C7: a reply to an existing comment stored under target `T` is created
with the parent's target, is persisted, and afterwards `list(T)` includes
the reply's reference; a reply to an unknown parent id fails with 404 and
writes nothing. -/
theorem reply_inherits_target (st : Store) (pid : String) (inp : CommentInput)
    (nid now T : String) (parent : CommentNote) :
    (lookupL st.comments pid = some (.good parent) →
     lastSegment parent.target = T →
     lookupL st.targets T ≠ some .bad →
     ∃ rep st', reply_to_comment st pid inp nid now = (.ok rep, st') ∧
       rep.target = parent.target ∧ lastSegment rep.target = T ∧
       rep.inReplyTo = some parent.id ∧
       lookupL st'.comments nid = some (.good rep) ∧
       ∃ col, get_comments st' T = .ok col ∧
         commentURL nid ∈ col.orderedItems) ∧
    (lookupL st.comments pid = none →
     reply_to_comment st pid inp nid now = (.err (.http 404), st)) := by
  constructor
  · intro hp hseg hbad
    have hget : get_comment st pid = .ok parent := by
      simp only [get_comment, hp]
    have htgt : (replyNote parent inp nid now).target = parent.target := rfl
    cases hl : lookupL st.targets T with
    | none =>
        have e : reply_to_comment st pid inp nid now
            = (.ok (replyNote parent inp nid now),
               { comments := setKey st.comments nid (.good (replyNote parent inp nid now)),
                 targets := setKey st.targets T (.good [nid]),
                 flags := st.flags }) := by
          simp only [reply_to_comment, hget, hseg, hl]
        refine ⟨replyNote parent inp nid now, _, e, rfl, by rw [htgt, hseg], rfl,
          lookupL_setKey_self _ _ _, ?_⟩
        refine ⟨⟨some (COMMENTS_BASE_URL ++ "/" ++ T), [nid].length,
          [nid].map commentURL⟩, ?_, ?_⟩
        · simp only [get_comments, lookupL_setKey_self]
        · simp
    | some f =>
        cases f with
        | bad => exact absurd hl hbad
        | good ids =>
            have e : reply_to_comment st pid inp nid now
                = (.ok (replyNote parent inp nid now),
                   { comments := setKey st.comments nid (.good (replyNote parent inp nid now)),
                     targets := setKey st.targets T (.good (ids ++ [nid])),
                     flags := st.flags }) := by
              simp only [reply_to_comment, hget, hseg, hl]
            refine ⟨replyNote parent inp nid now, _, e, rfl, by rw [htgt, hseg], rfl,
              lookupL_setKey_self _ _ _, ?_⟩
            refine ⟨⟨some (COMMENTS_BASE_URL ++ "/" ++ T), (ids ++ [nid]).length,
              (ids ++ [nid]).map commentURL⟩, ?_, ?_⟩
            · simp only [get_comments, lookupL_setKey_self]
            · simp
  · intro hp
    simp only [reply_to_comment, get_comment, hp]

/-- C8: Edit overwrites only `content` and `attributedTo`; the stored
record keeps its `id`, `published`, `inReplyTo` and `target`, the index
and flag directories are untouched, and the operation's outcome does not
depend on the index directory's contents at all (no index file is read
or written). -/
theorem edit_comment_frame (st : Store) (cid : String) (inp : CommentInput)
    (c : CommentNote) (h : lookupL st.comments cid = some (.good c)) :
    (edit_comment st cid inp).1
      = .ok { c with content := inp.content, attributedTo := inp.attributedTo } ∧
    lookupL (edit_comment st cid inp).2.comments cid
      = some (.good { c with content := inp.content, attributedTo := inp.attributedTo }) ∧
    ({ c with content := inp.content, attributedTo := inp.attributedTo } : CommentNote).id
      = c.id ∧
    ({ c with content := inp.content, attributedTo := inp.attributedTo } : CommentNote).published
      = c.published ∧
    ({ c with content := inp.content, attributedTo := inp.attributedTo } : CommentNote).inReplyTo
      = c.inReplyTo ∧
    ({ c with content := inp.content, attributedTo := inp.attributedTo } : CommentNote).target
      = c.target ∧
    (edit_comment st cid inp).2.targets = st.targets ∧
    (edit_comment st cid inp).2.flags = st.flags ∧
    ∀ ts, edit_comment { st with targets := ts } cid inp
      = ((edit_comment st cid inp).1,
         { (edit_comment st cid inp).2 with targets := ts }) := by
  have e : edit_comment st cid inp
      = (.ok { c with content := inp.content, attributedTo := inp.attributedTo },
         { st with comments := setKey st.comments cid (.good { c with content := inp.content, attributedTo := inp.attributedTo }) }) := by
    simp only [edit_comment, h]
  refine ⟨by rw [e], ?_, rfl, rfl, rfl, rfl, by rw [e], by rw [e], ?_⟩
  · rw [e]
    exact lookupL_setKey_self _ _ _
  · intro ts
    rw [e]
    simp only [edit_comment, h]

/-- C9: if the Document Store write succeeds but the Target Index write
then fails with an I/O fault, the create request reports a 500, yet the
comment record stays in the store with no index entry anywhere for it —
the first write is not rolled back. -/
theorem create_append_fault_no_rollback (st : Store) (t : String) (inp : CommentInput)
    (nid now : String)
    (hidx : lookupL st.targets t ≠ some .bad)
    (hfresh : ∀ t' ids, lookupL st.targets t' = some (.good ids) → nid ∉ ids) :
    (post_comment st t inp nid now ⟨false, true⟩).1 = .err (.http 500) ∧
    lookupL (post_comment st t inp nid now ⟨false, true⟩).2.comments nid
      = some (.good (mkNote t inp nid now)) ∧
    (post_comment st t inp nid now ⟨false, true⟩).2.targets = st.targets ∧
    (∀ t' ids, lookupL (post_comment st t inp nid now ⟨false, true⟩).2.targets t'
        = some (.good ids) → nid ∉ ids) := by
  have e : post_comment st t inp nid now ⟨false, true⟩
      = (.err (.http 500),
         { st with comments := setKey st.comments nid (.good (mkNote t inp nid now)) }) := by
    cases hl : lookupL st.targets t with
    | none => simp only [post_comment, hl, Bool.false_eq_true, if_false, if_true]
    | some f =>
        cases f with
        | bad => exact absurd hl hidx
        | good ids => simp only [post_comment, hl, Bool.false_eq_true, if_false, if_true]
  refine ⟨by rw [e], ?_, by rw [e], ?_⟩
  · rw [e]
    exact lookupL_setKey_self _ _ _
  · intro t' ids hl
    rw [e] at hl
    exact hfresh t' ids hl

/-! ### Concrete witness data -/

/-- A concrete actor for witness states. -/
def wActor : Actor := ⟨"http://example.com/users/u1", "U1", "Person"⟩

/-- Two comments under `t1` stored in non-sorted directory order, plus an
unrelated flag file. -/
def wStore4 : Store :=
  ⟨[("c2", .good (mkNote "t1" ⟨"b", wActor⟩ "c2" "ts2")),
    ("c1", .good (mkNote "t1" ⟨"a", wActor⟩ "c1" "ts1"))],
   [], [("c9", .good [("hidden", true)])]⟩

/-- One comment, no flag file yet. -/
def wStore5 : Store := ⟨[("c1", .good (mkNote "t1" ⟨"x", wActor⟩ "c1" "ts"))], [], []⟩

/-- Flag update setting only `hidden`. -/
def wU1 : FlagUpdate := ⟨some true, none, none, none⟩

/-- Flag update setting only `reported`. -/
def wU2 : FlagUpdate := ⟨none, none, some true, none⟩

/-- Two sequential create requests under one target. -/
def wOps : List (String × String × CommentInput) :=
  [("c1", "ts1", ⟨"hello", wActor⟩), ("c2", "ts2", ⟨"world", wActor⟩)]

/-- The parent comment used by the reply witness. -/
def wParent7 : CommentNote := mkNote "t1" ⟨"parent", wActor⟩ "p1" "ts0"

/-- The reply request body. -/
def wInp7 : CommentInput := ⟨"re", wActor⟩

/-- A store holding the parent comment and its index entry. -/
def wStore7 : Store := ⟨[("p1", .good wParent7)], [("t1", .good ["p1"])], []⟩

/-- The stored record edited by the C8 witness. -/
def wNote8 : CommentNote := mkNote "t1" ⟨"hello", wActor⟩ "c1" "ts1"

/-- A store holding one comment and its index entry. -/
def wStore8 : Store := ⟨[("c1", .good wNote8)], [("t1", .good ["c1"])], []⟩

/-- A store with one comment and no flag file for any other id. -/
def wStore10 : Store := ⟨[("c1", .good wNote8)], [], []⟩

/-! ### Witnesses -/

/-- Witness for the amended C1 at the concrete malformed store. -/
theorem malformed_read_fails_witness :
    get_comments badStore "t1" = .err .unhandled ∧
    get_flags badStore "c1" = .err (.http 500) :=
  malformed_read_fails badStore "t1" "c1" (by decide) (by decide)

/-- Witness for the amended C2 at a one-target store. -/
theorem snapshot_index_roundtrip_witness :
    lookupL (SnapshotData.mk [("t1.index", ["c1"])] []).indexes ("t1" ++ ".index")
      = some ["c1"] ∧
    get_comments snapStore "t1"
      = .ok { id := some (COMMENTS_BASE_URL ++ "/" ++ "t1"),
              totalItems := (["c1"] : List String).length,
              orderedItems := (["c1"] : List String).map commentURL } :=
  snapshot_index_roundtrip snapStore ⟨[("t1.index", ["c1"])], []⟩ "t1" ["c1"]
    (by decide) (by decide)

/-- Witness for C4 at a two-comment store: the rebuilt index for `t1` is
the group sorted by id, and the flag directory is untouched. -/
theorem rebuild_index_spec_witness :
    (rebuild_index wStore4).1 = .ok ([("t1", ["c2", "c1"])].map (fun q => q.1)) ∧
    lookupL (rebuild_index wStore4).2.targets "t1"
      = some (.good (sortStrings (groupIds wStore4.comments "t1"))) ∧
    sortStrings (groupIds wStore4.comments "t1") = ["c1", "c2"] ∧
    (rebuild_index wStore4).2.flags = wStore4.flags := by
  have h := rebuild_index_spec wStore4 [("t1", ["c2", "c1"])] (by decide)
  exact ⟨h.1, h.2.2.1 "t1" (by decide), by decide, h.2.2.2.2.2.1⟩

/-- Witness for C5: `{hidden: true}` then `{reported: true}` on a comment
with no prior flags yields both flags. -/
theorem flag_merge_additive_witness :
    (update_flags (update_flags wStore5 "c1" wU1).2 "c1" wU2).1
      = .ok [("hidden", true), ("reported", true)] ∧
    get_flags (update_flags (update_flags wStore5 "c1" wU1).2 "c1" wU2).2 "c1"
      = .ok [("hidden", true), ("reported", true)] := by
  have h := flag_merge_additive wStore5 "c1" "hidden" "reported" wU1 wU2
    (by decide) (by decide) (by decide) (by decide)
  exact ⟨h.1, h.2.1⟩

/-- Witness for C6: two sequential creates under `t1` starting from an
empty store are both listed, in creation order. -/
theorem sequential_creates_listed_witness :
    get_comments (runCreates (Store.mk [] [] []) "t1" wOps) "t1"
      = .ok ⟨some "https://slag.example.com/comments/t1", 2,
             ["https://slag.example.com/comments/c1",
              "https://slag.example.com/comments/c2"]⟩ := by
  obtain ⟨col, h1, h2, h3⟩ :=
    sequential_creates_listed (Store.mk [] [] []) "t1" wOps (by decide)
  have he : get_comments (runCreates (Store.mk [] [] []) "t1" wOps) "t1"
      = .ok ⟨some "https://slag.example.com/comments/t1", 2,
             ["https://slag.example.com/comments/c1",
              "https://slag.example.com/comments/c2"]⟩ := by decide
  exact he

/-- Witness for C7: a reply to an unknown parent 404s and writes nothing;
a reply to `p1` succeeds and is listed under the parent's target. -/
theorem reply_inherits_target_witness :
    reply_to_comment wStore7 "zz" wInp7 "r1" "ts1" = (.err (.http 404), wStore7) ∧
    (reply_to_comment wStore7 "p1" wInp7 "r1" "ts1").1
      = .ok (replyNote wParent7 wInp7 "r1" "ts1") ∧
    get_comments (reply_to_comment wStore7 "p1" wInp7 "r1" "ts1").2 "t1"
      = .ok ⟨some "https://slag.example.com/comments/t1", 2,
             ["https://slag.example.com/comments/p1",
              "https://slag.example.com/comments/r1"]⟩ := by
  have h404 :=
    (reply_inherits_target wStore7 "zz" wInp7 "r1" "ts1" "t1" wParent7).2 (by decide)
  have hok :=
    (reply_inherits_target wStore7 "p1" wInp7 "r1" "ts1" "t1" wParent7).1
      (by decide) (by decide) (by decide)
  exact ⟨h404, by decide, by decide⟩

/-- Witness for C8 at a one-comment store. -/
theorem edit_comment_frame_witness :
    (edit_comment wStore8 "c1" ⟨"hello v2", wActor⟩).1
      = .ok { wNote8 with content := "hello v2", attributedTo := wActor } ∧
    (edit_comment wStore8 "c1" ⟨"hello v2", wActor⟩).2.targets = wStore8.targets := by
  have h := edit_comment_frame wStore8 "c1" ⟨"hello v2", wActor⟩ wNote8 (by decide)
  exact ⟨h.1, h.2.2.2.2.2.2.1⟩

/-- Witness for C9 at an empty store: the create 500s on the injected
index-write fault, but the comment record stays. -/
theorem create_append_fault_no_rollback_witness :
    (post_comment (Store.mk [] [] []) "t1" wInp7 "c9" "ts" ⟨false, true⟩).1
      = .err (.http 500) ∧
    lookupL (post_comment (Store.mk [] [] []) "t1" wInp7 "c9" "ts" ⟨false, true⟩).2.comments "c9"
      = some (.good (mkNote "t1" wInp7 "c9" "ts")) ∧
    (post_comment (Store.mk [] [] []) "t1" wInp7 "c9" "ts" ⟨false, true⟩).2.targets = [] := by
  have h := create_append_fault_no_rollback (Store.mk [] [] []) "t1" wInp7 "c9" "ts"
    (by decide) (by intro t' ids hh; simp [lookupL] at hh)
  exact ⟨h.1, h.2.1, h.2.2.1⟩

/-- Witness for C10: flags can be written for an id that was never a
comment. -/
theorem update_flags_no_existence_check_witness :
    (update_flags wStore10 "ghost" wU2).1 = .ok (dictMerge [] wU2.items) ∧
    lookupL (update_flags wStore10 "ghost" wU2).2.flags "ghost"
      = some (.good (dictMerge [] wU2.items)) ∧
    dictMerge [] wU2.items = [("reported", true)] := by
  have h := update_flags_no_existence_check wStore10 "ghost" wU2 [] (by decide)
    (Or.inl ⟨by decide, rfl⟩)
  exact ⟨h.1, h.2.1, by decide⟩

end Slag
